import Mathlib

/-!
Verification of the overlay layout / pagination / template-merge core of the
e-recipe editor (source: src/html2pdf.py).

The Python source is shallowly embedded below.  Conventions of the embedding:

* Document coordinates and measured text widths are integers (`Int`).  The
  source computes them with binary floats, but every constant that enters a
  comparison or a position (`margin = 10`, `line_height = 14`,
  `line_height * 0.5 = 7.0`, `line_height * 1.5 = 21.0`) is exactly
  representable, so exact integer arithmetic is a faithful model of the
  float arithmetic actually performed on positions.  Font sizes
  (which include the non-integral `DEFAULT_FONT_SIZE * 0.9 = 8.1`) are kept
  as rationals; the source never branches on a size, it only passes sizes to
  the width measurer and to `setFont`.
* The ReportLab canvas is modelled by an explicit `Canvas` state (current
  page index, current font, list of emitted draw instructions).
  `canvas.setFont` raises `KeyError` for a font name that is not one of the
  fourteen built-in Type-1 fonts; this is modelled by `Except`, and every
  Python exception escaping a modelled function is an `Except.error`.
* `canvas.stringWidth` is additive over the characters of its argument
  (a sum of per-glyph widths); it is modelled by an arbitrary per-character
  width table `cw : fontName → size → Char → Int` summed over the string.
* Python `str.split()` (split on whitespace runs, dropping empty pieces) and
  `str.endswith` are re-implemented structurally so that concrete runs
  evaluate inside the kernel.
-/

namespace ERecipe

/-! ## String utilities (Python `str.split()`, `" ".join`, `str.endswith`) -/

/-- Helper for `pySplit`: walk the characters, accumulating the current token
in reverse. Mirrors Python `str.split()` with no separator argument. -/
def pySplitChars : List Char → List Char → List String
  | [], cur => if cur.isEmpty then [] else [⟨cur.reverse⟩]
  | c :: cs, cur =>
    if c.isWhitespace then
      (if cur.isEmpty then [] else [⟨cur.reverse⟩]) ++ pySplitChars cs []
    else pySplitChars cs (c :: cur)

/-- Python `text.split()`: split on runs of whitespace, no empty tokens. -/
def pySplit (s : String) : List String := pySplitChars s.data []

/-- Python `" ".join(line)`. -/
def joinSp : List String → String
  | [] => ""
  | [w] => w
  | w :: ws => w ++ " " ++ joinSp ws

/-- Python `s.endswith(suff)`. -/
def pyEndsWith (s suff : String) : Bool :=
  suff.data.reverse.isPrefixOf s.data.reverse

/-- Python truthiness of `line.strip()`: some character is not whitespace. -/
def stripNonEmpty (s : String) : Bool :=
  s.data.any (fun c => !c.isWhitespace)

/-! ## TemplateMerger: `PDFPreviewWidget.merge_pdfs` (html2pdf.py lines 283-312)

A page of the output is identified by which page of the template *file* its
background content was read from (`bgIndex`) together with the list of
overlay page indices that were merged onto it (`overlays`, in merge order).
A freshly read template page carries no overlays.  `PdfReader(path).pages[0]`
on a zero-page file raises `IndexError`, modelled by `Option`. -/

structure PdfPage where
  bgIndex : Nat
  overlays : List Nat
deriving DecidableEq, Repr

/-- Models `template_page.merge_page(overlay_pdf.pages[i])`: stamp overlay page `i`
onto the page. -/
def merge_page (p : PdfPage) (i : Nat) : PdfPage :=
  ⟨p.bgIndex, p.overlays ++ [i]⟩

/-- The pages obtained by opening the template file afresh
(`PdfReader(template_path).pages`): clean background-only pages. -/
def readerPages (n : Nat) : List PdfPage :=
  (List.range n).map (fun i => ⟨i, []⟩)

/-- The body of the `for i in range(num_pages)` loop of `merge_pdfs`,
mapped over the page indices.  For `i < nTemplate` the page comes from the
already-open reader (each of its pages is touched in exactly one iteration,
so reading it as a clean page is exact); otherwise the source re-opens the
file and takes page 0, which raises `IndexError` when the file has no
pages. -/
def mergeLoop (nTemplate nOverlay : Nat) : List Nat → Option (List PdfPage)
  | [] => some []
  | i :: is =>
    match (if i < nTemplate then some ⟨i, []⟩ else (readerPages nTemplate).get? 0) with
    | none => none
    | some template_page =>
      match mergeLoop nTemplate nOverlay is with
      | none => none
      | some rest =>
        some ((if i < nOverlay then merge_page template_page i else template_page) :: rest)

/-- Models `PDFPreviewWidget.merge_pdfs`, abstracted over the page counts of the two
input files.  `none` models an exception escaping the merge. -/
def merge_pdfs (nTemplate nOverlay : Nat) : Option (List PdfPage) :=
  mergeLoop nTemplate nOverlay (List.range (max nTemplate nOverlay))

/-- The output page at index `i` of a successful merge (see `mergeLoop`). -/
def mergedPage (nTemplate nOverlay i : Nat) : PdfPage :=
  let template_page : PdfPage := if i < nTemplate then ⟨i, []⟩ else ⟨0, []⟩
  if i < nOverlay then merge_page template_page i else template_page

/-! ## Styles and font resolution (html2pdf.py lines 1047-1073, 1094-1103,
1138, 1227-1259) -/

structure TextStyle where
  font : String
  size : ℚ
  bold : Bool
  italic : Bool
  underline : Bool
deriving DecidableEq

/-- Models `standard_fonts` literal of `draw_wrapped_text` (line 1052). -/
def standard_fonts : List String :=
  ["Helvetica", "Times-Roman", "Courier", "Symbol", "ZapfDingbats"]

/-- The family list guarding the bold/italic suffixing (lines 1060, 1063). -/
def suffixable_fonts : List String := ["Helvetica", "Times-Roman", "Courier"]

/-- The fourteen built-in ReportLab Type-1 font names; `canvas.setFont` with
any other name raises `KeyError`. -/
def reportlab_fonts : List String :=
  ["Helvetica", "Helvetica-Bold", "Helvetica-Oblique", "Helvetica-BoldOblique",
   "Times-Roman", "Times-Bold", "Times-Italic", "Times-BoldItalic",
   "Courier", "Courier-Bold", "Courier-Oblique", "Courier-BoldOblique",
   "Symbol", "ZapfDingbats"]

/-- The font name computed at the top of `draw_wrapped_text`
(lines 1048-1064): substitute an unsupported family with Helvetica, then
append the bold / italic variant suffixes. -/
def initialFontName (s : TextStyle) : String :=
  let fn := if s.font ∈ standard_fonts then s.font else "Helvetica"
  let fn := if s.bold ∧ fn ∈ suffixable_fonts then fn ++ "-Bold" else fn
  let fn :=
    if s.italic ∧ fn ∈ suffixable_fonts then
      (if fn = "Helvetica" then fn ++ "-Oblique" else fn ++ "-Italic")
    else fn
  fn

/-- The font name rebuilt after a page break inside `draw_wrapped_text`
(lines 1094-1103): the raw requested family with plain string suffixes and
no substitution check. -/
def reappliedFontName (s : TextStyle) : String :=
  let fn := s.font
  let fn := if s.bold then fn ++ "-Bold" else fn
  let fn := if s.italic then fn ++ "-Italic" else fn
  let fn := if s.underline then fn ++ "-Underline" else fn
  fn

/-- The font name used for the key/value header rows
(`style['font'] + ("-Bold" if style.get('bold', …) else "")`, lines
1138-1162). -/
def kvFontName (s : TextStyle) : String :=
  s.font ++ (if s.bold then "-Bold" else "")

/-- Models `self.DEFAULT_FONT_SIZE` (line 616). -/
def DEFAULT_FONT_SIZE : ℚ := 9

/-- Models `adjusted_size = self.DEFAULT_FONT_SIZE * 0.9` (line 1230). -/
def adjusted_size : ℚ := DEFAULT_FONT_SIZE * (9 / 10)

/-- The field-name list of the second branch of `get_field_style`
(line 1242). -/
def basic_info_fields : List String :=
  ["fecha", "paciente", "edad", "biotipo", "fototipo", "envejecimiento",
   "proxima_cita"]

/-- Models `MedicalRecipeEditor.get_field_style` (lines 1227-1259), over the current
contents of `self.field_styles`. -/
def get_field_style (fieldStyles : String → Option TextStyle)
    (field_name : String) : TextStyle :=
  if pyEndsWith field_name "_label" then
    (fieldStyles field_name).getD ⟨"Helvetica", adjusted_size, true, false, false⟩
  else if field_name ∈ basic_info_fields then
    (fieldStyles field_name).getD ⟨"Helvetica", adjusted_size, false, false, false⟩
  else
    (fieldStyles field_name).getD ⟨"Helvetica", adjusted_size, false, false, false⟩

/-- The keys of the `self.field_styles` dictionary literal built in `initUI`
(lines 850-863). -/
def label_style_keys : List String :=
  ["fecha_label", "paciente_label", "edad_label", "biotipo_label",
   "fototipo_label", "envejecimiento_label", "diagnostico_label",
   "plan_tratamiento_label", "rutina_am_label", "rutina_pm_label",
   "recomendacion_label", "proxima_cita_label"]

/-- The initial `self.field_styles` map (lines 850-863): every label key maps
to bold Helvetica at `DEFAULT_FONT_SIZE`; the dictionary literal has no
italic/underline entries and `style.get` defaults them to `False`. -/
def initial_field_styles : String → Option TextStyle := fun n =>
  if n ∈ label_style_keys then some ⟨"Helvetica", DEFAULT_FONT_SIZE, true, false, false⟩
  else none

/-! ## ReportLab canvas model -/

/-- One `c.drawString(x, y, text)` call, with the canvas font in force and
the page it landed on. -/
structure DrawInstr where
  page : Nat
  x : Int
  y : Int
  text : String
  font : String
  size : ℚ
deriving DecidableEq

structure Canvas where
  page : Nat
  font : String
  size : ℚ
  instrs : List DrawInstr
deriving DecidableEq

/-- A freshly constructed `canvas.Canvas(...)`: page 0, ReportLab default
font Helvetica 12, nothing drawn. -/
def Canvas.init : Canvas := ⟨0, "Helvetica", 12, []⟩

/-- Models `c.setFont(fn, sz)`: raises (`Except.error`) for a name that is not a
built-in font. -/
def Canvas.setFont (c : Canvas) (fn : String) (sz : ℚ) : Except String Canvas :=
  if fn ∈ reportlab_fonts then Except.ok { c with font := fn, size := sz }
  else Except.error fn

/-- Models `c.drawString(x, y, text)`. -/
def Canvas.drawString (c : Canvas) (x y : Int) (text : String) : Canvas :=
  { c with instrs := c.instrs ++ [⟨c.page, x, y, text, c.font, c.size⟩] }

/-- Models `c.showPage()`: closes the page and resets the graphics state (the font
reverts to the ReportLab default, which is why the source re-applies the
style after a page break). -/
def Canvas.showPage (c : Canvas) : Canvas :=
  { c with page := c.page + 1, font := "Helvetica", size := 12 }

/-! ## Overlay layout parameters (html2pdf.py lines 1010-1023) -/

/-- Ambient constants of one `create_overlay` run: the working-area offsets
(`y_offset` already flipped to bottom-left origin, line 1017), its
dimensions, and the per-character width table backing
`c.stringWidth(text, font, size)`. -/
structure OverlayParams where
  x_offset : Int
  y_offset : Int
  work_width : Int
  work_height : Int
  cw : String → ℚ → Char → Int

/-- Models `margin = 10` (line 1020). -/
def margin : Int := 10

/-- Models `line_height = 14` (line 1023). -/
def line_height : Int := 14

/-- Models `line_height * 0.5` — exactly `7.0` in the source's float arithmetic. -/
def half_line_height : Int := 7

/-- Models `c.stringWidth(text, fn, sz)`: sum of per-character widths. -/
def stringWidth (P : OverlayParams) (text : String) (fn : String) (sz : ℚ) : Int :=
  (text.data.map (P.cw fn sz)).sum

/-- Models `x_pos = x_offset + margin` (line 1021). -/
def x_pos (P : OverlayParams) : Int := P.x_offset + margin

/-- Models `y_pos = y_offset + work_height - margin` (line 1022): the initial write
position at the top of the working area. -/
def initial_y_pos (P : OverlayParams) : Int :=
  P.y_offset + P.work_height - margin

/-- Models `available_width = work_width - 2 * margin` (line 1076). -/
def available_width (P : OverlayParams) : Int := P.work_width - 2 * margin

/-- Models `create_new_page` (lines 1026-1031): `c.showPage()`, re-set the page
size, and return the reset write position at the top of the working area. -/
def create_new_page (P : OverlayParams) (c : Canvas) : Int × Canvas :=
  (P.y_offset + P.work_height - margin, c.showPage)

/-! ## `draw_wrapped_text` (html2pdf.py lines 1043-1131) -/

/-- Result of the page-break check performed before flushing a line:
the (possibly reset) write position, the local `font_name` / `font_size`
variables (reassigned by the re-application block), and the canvas. -/
structure BreakOut where
  y : Int
  font_name : String
  font_size : ℚ
  canvas : Canvas
deriving DecidableEq

/-- The `if y_pos - line_height < y_offset:` block that precedes every
`drawString` of a wrapped line (lines 1091-1103 and 1113-1125): on overflow,
`create_new_page()` and — only when a style was passed — re-apply the
*original* style by raw suffix concatenation (no substitution check, and an
`-Underline` suffix that no built-in font has). -/
def page_break_check (P : OverlayParams) (original_style : Option TextStyle)
    (font_name : String) (font_size : ℚ) (y_pos : Int) (c : Canvas) :
    Except String BreakOut :=
  if y_pos - line_height < P.y_offset then
    match original_style with
    | some s =>
      match (create_new_page P c).2.setFont (reappliedFontName s) s.size with
      | Except.error e => Except.error e
      | Except.ok c2 =>
        Except.ok ⟨(create_new_page P c).1, reappliedFontName s, s.size, c2⟩
    | none =>
      Except.ok ⟨(create_new_page P c).1, font_name, font_size,
        (create_new_page P c).2⟩
  else Except.ok ⟨y_pos, font_name, font_size, c⟩

/-- Result of the wrap loop: final write position, final canvas, and the
flushed lines (as token lists; the drawn text of each is its
`" ".join`). -/
structure WrapOut where
  y : Int
  canvas : Canvas
  lines : List (List String)
deriving DecidableEq

/-- The `for word in words` loop of `draw_wrapped_text` (lines 1083-1129),
including the final `if current_line:` flush.  State threaded exactly as in
the source: the pending line and its accumulated width, the local
`font_name` / `font_size` (which the page-break block reassigns), the write
position and the canvas. -/
def wrapLoop (P : OverlayParams) (original_style : Option TextStyle) :
    List String → List String → Int → String → ℚ → Int → Canvas →
    Except String WrapOut
  | [], current_line, _current_width, font_name, font_size, y_pos, c =>
    match current_line with
    | [] => Except.ok ⟨y_pos, c, []⟩
    | _ :: _ =>
      match page_break_check P original_style font_name font_size y_pos c with
      | Except.error e => Except.error e
      | Except.ok b =>
        Except.ok ⟨b.y - line_height,
          b.canvas.drawString (x_pos P) b.y (joinSp current_line),
          [current_line]⟩
  | word :: words, current_line, current_width, font_name, font_size, y_pos, c =>
    let word_width := stringWidth P (word ++ " ") font_name font_size
    if current_width + word_width ≤ available_width P then
      wrapLoop P original_style words (current_line ++ [word])
        (current_width + word_width) font_name font_size y_pos c
    else
      match page_break_check P original_style font_name font_size y_pos c with
      | Except.error e => Except.error e
      | Except.ok b =>
        match wrapLoop P original_style words [word] word_width
            b.font_name b.font_size (b.y - line_height)
            (b.canvas.drawString (x_pos P) b.y (joinSp current_line)) with
        | Except.error e => Except.error e
        | Except.ok o => Except.ok ⟨o.y, o.canvas, current_line :: o.lines⟩

/-- The font name and size resolved at the top of `draw_wrapped_text`
(lines 1047-1073): substituted/variant name for a style, Helvetica at
`DEFAULT_FONT_SIZE` otherwise. -/
def resolvedFont (style : Option TextStyle) : String × ℚ :=
  match style with
  | some s => (initialFontName s, s.size)
  | none => ("Helvetica", DEFAULT_FONT_SIZE)

/-- Models `draw_wrapped_text(text, y_pos, style)` (lines 1043-1131). -/
def draw_wrapped_text (P : OverlayParams) (text : String) (y_pos : Int)
    (style : Option TextStyle) (c : Canvas) : Except String WrapOut :=
  match c.setFont (resolvedFont style).1 (resolvedFont style).2 with
  | Except.error e => Except.error e
  | Except.ok c =>
    wrapLoop P style (pySplit text) [] 0 (resolvedFont style).1
      (resolvedFont style).2 y_pos c

/-! ## `create_overlay` (html2pdf.py lines 991-1206) -/

/-- The form values read by `create_overlay` (text fields already extracted
from the widgets; multi-line fields as the `'\n'`-split of their plain
text). -/
structure FormData where
  fecha_day : Nat
  fecha_month : Nat
  fecha_year : Nat
  paciente : String
  edad : Nat
  biotipo : String
  fototipo : String
  envejecimiento : String
  diagnostico : List String
  plan_tratamiento : List String
  rutina_am : List String
  rutina_pm : List String
  recomendacion : List String
  proxima_cita : String

/-- The Spanish month-name dictionary of `format_date_spanish`
(lines 1289-1293); `QDate` months are always 1..12. -/
def spanish_month : Nat → String
  | 1 => "enero" | 2 => "febrero" | 3 => "marzo" | 4 => "abril"
  | 5 => "mayo" | 6 => "junio" | 7 => "julio" | 8 => "agosto"
  | 9 => "septiembre" | 10 => "octubre" | 11 => "noviembre" | 12 => "diciembre"
  | _ => ""

/-- Models `format_date_spanish` (lines 1282-1296). -/
def format_date_spanish (day month year : Nat) : String :=
  "Riobamba, " ++ toString day ++ " de " ++ spanish_month month ++ " de " ++
    toString year

/-- One key/value header row (the pattern of lines 1136-1143 and
1154-1164): label run at `x_pos`, content run immediately to its right at
the measured label width, then one `line_height` advance.  No page-break
check is performed on this path. -/
def draw_kv_row (P : OverlayParams) (label_text content_text : String)
    (label_style content_style : TextStyle) (y_pos : Int) (c : Canvas) :
    Except String (Int × Canvas) :=
  match c.setFont (kvFontName label_style) label_style.size with
  | Except.error e => Except.error e
  | Except.ok c =>
    match (c.drawString (x_pos P) y_pos label_text).setFont
        (kvFontName content_style) content_style.size with
    | Except.error e => Except.error e
    | Except.ok c2 =>
      Except.ok (y_pos - line_height,
        c2.drawString
          (x_pos P + stringWidth P label_text (kvFontName label_style) label_style.size)
          y_pos content_text)

/-- The `fields` tuple list of lines 1146-1152 (label text, content text,
label style key, content style key). -/
def overlay_fields (d : FormData) : List (String × String × String × String) :=
  [("Paciente: ", d.paciente, "paciente_label", "paciente"),
   ("Edad: ", toString d.edad ++ " años", "edad_label", "edad"),
   ("Biotipo: ", d.biotipo, "biotipo_label", "biotipo"),
   ("Fototipo: ", d.fototipo, "fototipo_label", "fototipo"),
   ("Grado de envejecimiento: ", d.envejecimiento, "envejecimiento_label",
    "envejecimiento")]

/-- The `for label_text, content_text, … in fields` loop (lines 1154-1164). -/
def draw_field_rows (P : OverlayParams) (gfs : String → TextStyle) :
    List (String × String × String × String) → Int → Canvas →
    Except String (Int × Canvas)
  | [], y_pos, c => Except.ok (y_pos, c)
  | (label_text, content_text, lkey, ckey) :: rest, y_pos, c =>
    match draw_kv_row P label_text content_text (gfs lkey) (gfs ckey) y_pos c with
    | Except.error e => Except.error e
    | Except.ok (y_pos, c) => draw_field_rows P gfs rest y_pos c

/-- The per-section body loop
(`for line in …toPlainText().split('\n'): if line.strip(): …`,
e.g. lines 1169-1171). -/
def draw_body_lines (P : OverlayParams) (style : TextStyle) :
    List String → Int → Canvas → Except String (Int × Canvas)
  | [], y_pos, c => Except.ok (y_pos, c)
  | line :: rest, y_pos, c =>
    if stripNonEmpty line then
      match draw_wrapped_text P line y_pos (some style) c with
      | Except.error e => Except.error e
      | Except.ok o => draw_body_lines P style rest o.y o.canvas
    else draw_body_lines P style rest y_pos c

/-- One section block (the pattern of lines 1166-1171): half-line gap,
wrapped section header under the label style, then the non-empty body
lines under the content style. -/
def draw_section (P : OverlayParams) (gfs : String → TextStyle)
    (header lkey ckey : String) (body : List String) (y_pos : Int)
    (c : Canvas) : Except String (Int × Canvas) :=
  match draw_wrapped_text P header (y_pos - half_line_height) (some (gfs lkey)) c with
  | Except.error e => Except.error e
  | Except.ok o => draw_body_lines P (gfs ckey) body o.y o.canvas

/-- The five section blocks of lines 1166-1199, in source order. -/
def overlay_sections (d : FormData) : List (String × String × List String) :=
  [("Diagnóstico:", "diagnostico", d.diagnostico),
   ("Plan de tratamiento:", "plan_tratamiento", d.plan_tratamiento),
   ("Rutina Facial (AM):", "rutina_am", d.rutina_am),
   ("Rutina Facial (PM):", "rutina_pm", d.rutina_pm),
   ("Recomendación Antiestres y Performance:", "recomendacion",
    d.recomendacion)]

/-- Folds `draw_section` over the five section blocks. -/
def draw_sections (P : OverlayParams) (gfs : String → TextStyle) :
    List (String × String × List String) → Int → Canvas →
    Except String (Int × Canvas)
  | [], y_pos, c => Except.ok (y_pos, c)
  | (header, key, body) :: rest, y_pos, c =>
    match draw_section P gfs header (key ++ "_label") key body y_pos c with
    | Except.error e => Except.error e
    | Except.ok (y_pos, c) => draw_sections P gfs rest y_pos c

/-- The working-area rectangle `self.working_area` (a `QRect` of ints,
top-left origin) and the rectangles of the selection model. -/
structure IntRect where
  x : Int
  y : Int
  w : Int
  h : Int
deriving DecidableEq

/-- Models `MedicalRecipeEditor.create_overlay` (lines 991-1206): build the canvas,
flip the working-area origin (line 1017), draw the date row, the five
key/value rows, the five wrapped sections, and the final next-appointment
line.  Returns the canvas saved by `c.save()`; an exception escaping any
`setFont` is an `Except.error`. -/
def create_overlay (wa : IntRect) (pdf_width pdf_height : Int)
    (cw : String → ℚ → Char → Int) (fieldStyles : String → Option TextStyle)
    (d : FormData) : Except String Canvas :=
  let P : OverlayParams :=
    { x_offset := wa.x
      y_offset := pdf_height - wa.y - wa.h
      work_width := wa.w
      work_height := wa.h
      cw := cw }
  let gfs := get_field_style fieldStyles
  let fecha := format_date_spanish d.fecha_day d.fecha_month d.fecha_year
  match draw_kv_row P "Fecha: " fecha (gfs "fecha_label") (gfs "fecha")
      (initial_y_pos P) Canvas.init with
  | Except.error e => Except.error e
  | Except.ok (y_pos, c) =>
    match draw_field_rows P gfs (overlay_fields d) y_pos c with
    | Except.error e => Except.error e
    | Except.ok (y_pos, c) =>
      match draw_sections P gfs (overlay_sections d) y_pos c with
      | Except.error e => Except.error e
      | Except.ok (y_pos, c) =>
        match draw_wrapped_text P ("Próxima cita médica: " ++ d.proxima_cita)
            (y_pos - half_line_height) (some (gfs "proxima_cita")) c with
        | Except.error e => Except.error e
        | Except.ok o => Except.ok o.canvas

/-- The instructions of an overlay run; an aborted run draws nothing that
outlives the exception (the temp file is never `c.save()`d). -/
def overlayInstrs (r : Except String Canvas) : List DrawInstr :=
  match r with
  | Except.ok c => c.instrs
  | Except.error _ => []

/-- The instructions present after a `draw_wrapped_text` call (the caller's
canvas on failure never reaches `c.save()`). -/
def wrapInstrs (r : Except String WrapOut) : List DrawInstr :=
  match r with
  | Except.ok o => o.canvas.instrs
  | Except.error _ => []

/-! ## `generate_pdf` file-system events (html2pdf.py lines 963-989 and
310-312)

`generate_pdf` writes the overlay to a `NamedTemporaryFile`, then calls
`merge_pdfs(template, overlay, save_path)`.  `merge_pdfs` assembles the
whole `PdfWriter` in memory (the loop of lines 293-308) and only then opens
`save_path` itself with `open(output_path, 'wb')` (truncating) and streams
the document into it.  No rename/move is ever performed. -/

inductive GenEv where
  | overlayWritten (path : String)
  | mergeCompleted
  | openedOutput (path : String)
  | wroteOutput (path : String)
  | movedOutput (src dst : String)
deriving DecidableEq

def GenEv.isMove : GenEv → Bool
  | .movedOutput _ _ => true
  | _ => false

/-- File-system events of `merge_pdfs(template, overlay, output_path)`:
nothing touches the file system until the in-memory merge loop finishes; an
exception inside the loop (see `merge_pdfs`) escapes before `open`. -/
def merge_pdfs_events (nTemplate nOverlay : Nat) (output_path : String) :
    List GenEv :=
  match merge_pdfs nTemplate nOverlay with
  | none => []
  | some _ =>
    [GenEv.mergeCompleted, GenEv.openedOutput output_path,
     GenEv.wroteOutput output_path]

/-- File-system events of `MedicalRecipeEditor.generate_pdf` after the user
picked `save_path` (lines 980-984): create the overlay temp file, then merge
directly into `save_path`. -/
def generate_pdf_events (nTemplate nOverlay : Nat)
    (overlay_tmp save_path : String) : List GenEv :=
  GenEv.overlayWritten overlay_tmp ::
    merge_pdfs_events nTemplate nOverlay save_path

/-- State of the file at the save path: absent, opened-and-truncated
(partial), or completely written. -/
inductive OutFileState where
  | absent
  | truncated
  | complete
deriving DecidableEq

def outFileStep (save : String) (st : OutFileState) : GenEv → OutFileState
  | GenEv.openedOutput p => if p = save then OutFileState.truncated else st
  | GenEv.wroteOutput p => if p = save then OutFileState.complete else st
  | GenEv.movedOutput _ dst => if dst = save then OutFileState.complete else st
  | _ => st

/-- The state of the file at `save` after executing a (possibly truncated)
chronological event list. -/
def outFileStateAt (save : String) (evs : List GenEv) : OutFileState :=
  evs.foldl (outFileStep save) OutFileState.absent

/-! ## Selection → working area (html2pdf.py lines 151-163, 237-251) -/

/-- Models `QRect(start_point, end_point).normalized()` under Qt6 semantics: the
two points are opposite corners, coordinates are inclusive, so the
normalized width/height are `|dx| + 1` / `|dy| + 1`. -/
def qrectNormalized (sx sy ex ey : Int) : IntRect :=
  ⟨min sx ex, min sy ey, (ex - sx).natAbs + 1, (ey - sy).natAbs + 1⟩

/-- Models `_mouse_release` (lines 151-163): finalize the selection and discard it
when narrower or shorter than 10 preview pixels. -/
def mouse_release_selection (sx sy ex ey : Int) : Option IntRect :=
  if (qrectNormalized sx sy ex ey).w < 10 ∨
      (qrectNormalized sx sy ex ey).h < 10 then none
  else some (qrectNormalized sx sy ex ey)

/-- Python `int(q)`: truncation toward zero. -/
def pyInt (q : ℚ) : Int := if 0 ≤ q then ⌊q⌋ else -⌊-q⌋

/-- Models `get_selection_rect` (lines 237-251): translate the stored selection to
PDF-page-relative coordinates and unscale it, truncating to ints. -/
def get_selection_rect (sel : Option IntRect) (pdf_rect : IntRect)
    (scale_factor : ℚ) : Option IntRect :=
  match sel with
  | none => none
  | some r =>
    some ⟨pyInt (((r.x - pdf_rect.x : Int) : ℚ) / scale_factor),
          pyInt (((r.y - pdf_rect.y : Int) : ℚ) / scale_factor),
          pyInt ((r.w : ℚ) / scale_factor),
          pyInt ((r.h : ℚ) / scale_factor)⟩

/-- The selection pipeline from mouse release to `set_working_area`. -/
def workingAreaOf (sx sy ex ey : Int) (pdf_rect : IntRect)
    (scale_factor : ℚ) : Option IntRect :=
  get_selection_rect (mouse_release_selection sx sy ex ey) pdf_rect scale_factor

/-! ## Invariant predicates -/

/-- Canvas sanity: the emitted instruction stream has non-decreasing page
indices, all at most the current page. -/
def Canvas.Wf (c : Canvas) : Prop :=
  List.Pairwise (· ≤ ·) (c.instrs.map DrawInstr.page) ∧
    ∀ ι ∈ c.instrs, ι.page ≤ c.page

/-- The local `font_name` / `font_size` of a `draw_wrapped_text` call are
the resolved initial values of its style argument. -/
def FontHyp : Option TextStyle → String → ℚ → Prop
  | none, _, _ => True
  | some s, fn0, sz0 => fn0 = initialFontName s ∧ sz0 = s.size

/-- A style whose page-break re-application cannot change the font in a
surviving run: the re-applied name equals the initial one, or it is not a
built-in font (so the re-application raises and the run dies).  Every style
reachable through the editor UI satisfies this. -/
def fontStable : Option TextStyle → Prop
  | none => True
  | some s =>
    reappliedFontName s = initialFontName s ∨
      reappliedFontName s ∉ reportlab_fonts

/-- The accumulated `current_width` of a pending line: each word counts with
one trailing space, as in the loop of lines 1083-1088. -/
def lineWidth (P : OverlayParams) (fn : String) (sz : ℚ)
    (line : List String) : Int :=
  (line.map (fun w => stringWidth P (w ++ " ") fn sz)).sum

/-! ## Concrete instances used by witnesses and counterexamples -/

/-- Width table assigning every character width 1 in every font. -/
def cwOne : String → ℚ → Char → Int := fun _ _ _ => 1

def P_w : OverlayParams := ⟨0, 0, 120, 400, cwOne⟩

def style_hb : TextStyle := ⟨"Helvetica", DEFAULT_FONT_SIZE, true, false, false⟩

def arial_style : TextStyle := ⟨"Arial", DEFAULT_FONT_SIZE, false, false, false⟩

def P_c4 : OverlayParams := ⟨0, 100, 100, 50, cwOne⟩

def P_c10 : OverlayParams := ⟨0, 0, 22, 400, cwOne⟩

def P_brk : OverlayParams := ⟨0, 100, 200, 60, cwOne⟩

def b_brk : BreakOut :=
  ⟨150, "Helvetica", DEFAULT_FONT_SIZE, ⟨1, "Helvetica", 12, []⟩⟩

/-- A 500 x 30 pt working area near the top of an A4 page: too short for
even the six key/value header rows. -/
def waC : IntRect := ⟨50, 700, 500, 30⟩

def dataC : FormData :=
  ⟨1, 1, 2025, "Ana", 30, "N", "II", "Leve", ["d"], ["p"], ["a"], ["n"],
   ["r"], "01/02/2025"⟩

def oC9 : WrapOut :=
  ⟨186, ⟨0, "Helvetica", DEFAULT_FONT_SIZE,
    [⟨0, 10, 200, "ab cd", "Helvetica", DEFAULT_FONT_SIZE⟩]⟩, [["ab", "cd"]]⟩

def oC10 : WrapOut :=
  ⟨72, ⟨0, "Helvetica", DEFAULT_FONT_SIZE,
    [⟨0, 10, 100, "", "Helvetica", DEFAULT_FONT_SIZE⟩,
     ⟨0, 10, 86, "abc", "Helvetica", DEFAULT_FONT_SIZE⟩]⟩, [[], ["abc"]]⟩

def outC7 : List PdfPage := [⟨0, [0]⟩, ⟨0, [1]⟩, ⟨0, [2]⟩]

/-- The single instruction drawn by
`draw_wrapped_text P_w "hola mundo" 200 (some style_hb) Canvas.init`. -/
def iC2 : DrawInstr := ⟨0, 10, 200, "hola mundo", "Helvetica-Bold", DEFAULT_FONT_SIZE⟩

/-- The single instruction drawn by
`draw_wrapped_text P_w "hola mundo" 150 none Canvas.init`. -/
def iC5 : DrawInstr := ⟨0, 10, 150, "hola mundo", "Helvetica", DEFAULT_FONT_SIZE⟩

def pdfC : IntRect := ⟨20, 30, 400, 500⟩

/-! ## Basic lemmas about the canvas primitives -/

theorem setFont_ok {c : Canvas} {fn : String} {sz : ℚ} {c' : Canvas}
    (h : c.setFont fn sz = Except.ok c') :
    fn ∈ reportlab_fonts ∧ c' = { c with font := fn, size := sz } := by
  unfold Canvas.setFont at h
  split at h
  · exact ⟨by assumption, by injection h with h; exact h.symm⟩
  · exact Except.noConfusion h

theorem create_new_page_fst (P : OverlayParams) (c : Canvas) :
    (create_new_page P c).1 = initial_y_pos P := rfl

theorem create_new_page_snd (P : OverlayParams) (c : Canvas) :
    (create_new_page P c).2 = c.showPage := rfl

theorem page_break_check_spec {P : OverlayParams} {os : Option TextStyle}
    {fn : String} {sz : ℚ} {y : Int} {c : Canvas} {b : BreakOut}
    (h : page_break_check P os fn sz y c = Except.ok b) :
    b.canvas.instrs = c.instrs ∧
      (b.canvas.page = c.page ∨ b.canvas.page = c.page + 1) ∧
      ((¬ (y - line_height < P.y_offset) ∧ b = ⟨y, fn, sz, c⟩) ∨
        ((y - line_height < P.y_offset) ∧ b.y = initial_y_pos P ∧
          b.canvas.page = c.page + 1)) := by
  unfold page_break_check at h
  split at h
  case isTrue hlt =>
    split at h
    case h_1 s =>
      split at h
      case h_1 e heq => exact Except.noConfusion h
      case h_2 c2 heq =>
        injection h with h
        subst h
        obtain ⟨-, hc2⟩ := setFont_ok heq
        subst hc2
        exact ⟨rfl, Or.inr rfl, Or.inr ⟨hlt, rfl, rfl⟩⟩
    case h_2 =>
      injection h with h
      subst h
      exact ⟨rfl, Or.inr rfl, Or.inr ⟨hlt, rfl, rfl⟩⟩
  case isFalse hge =>
    injection h with h
    subst h
    exact ⟨rfl, Or.inl rfl, Or.inl ⟨hge, rfl⟩⟩

theorem page_break_check_font {P : OverlayParams} {os : Option TextStyle}
    {fn0 : String} {sz0 : ℚ} {y : Int} {c : Canvas} {b : BreakOut}
    (hfh : FontHyp os fn0 sz0) (hst : fontStable os)
    (h : page_break_check P os fn0 sz0 y c = Except.ok b) :
    b.font_name = fn0 ∧ b.font_size = sz0 := by
  unfold page_break_check at h
  split at h
  case isTrue hlt =>
    split at h
    case h_1 s =>
      split at h
      case h_1 e heq => exact Except.noConfusion h
      case h_2 c2 heq =>
        injection h with h
        subst h
        obtain ⟨hmem, -⟩ := setFont_ok heq
        obtain ⟨hfn, hsz⟩ := hfh
        rcases hst with hstab | hninv
        · exact ⟨by simp only; rw [hstab, hfn], hsz.symm⟩
        · exact absurd hmem hninv
    case h_2 =>
      injection h with h
      subst h
      exact ⟨rfl, rfl⟩
  case isFalse =>
    injection h with h
    subst h
    exact ⟨rfl, rfl⟩

/-! ## Unfolding lemmas for the wrap loop -/

theorem wrapLoop_nil_nil (P : OverlayParams) (os : Option TextStyle)
    (cwidth : Int) (fn : String) (sz : ℚ) (y : Int) (c : Canvas) :
    wrapLoop P os [] [] cwidth fn sz y c = Except.ok ⟨y, c, []⟩ := rfl

theorem wrapLoop_nil_cons (P : OverlayParams) (os : Option TextStyle)
    (w : String) (ws : List String) (cwidth : Int) (fn : String) (sz : ℚ)
    (y : Int) (c : Canvas) :
    wrapLoop P os [] (w :: ws) cwidth fn sz y c =
      match page_break_check P os fn sz y c with
      | Except.error e => Except.error e
      | Except.ok b =>
        Except.ok ⟨b.y - line_height,
          b.canvas.drawString (x_pos P) b.y (joinSp (w :: ws)), [w :: ws]⟩ := rfl

theorem wrapLoop_cons (P : OverlayParams) (os : Option TextStyle)
    (word : String) (words line : List String) (cwidth : Int) (fn : String)
    (sz : ℚ) (y : Int) (c : Canvas) :
    wrapLoop P os (word :: words) line cwidth fn sz y c =
      if cwidth + stringWidth P (word ++ " ") fn sz ≤ available_width P then
        wrapLoop P os words (line ++ [word])
          (cwidth + stringWidth P (word ++ " ") fn sz) fn sz y c
      else
        match page_break_check P os fn sz y c with
        | Except.error e => Except.error e
        | Except.ok b =>
          match wrapLoop P os words [word] (stringWidth P (word ++ " ") fn sz)
              b.font_name b.font_size (b.y - line_height)
              (b.canvas.drawString (x_pos P) b.y (joinSp line)) with
          | Except.error e => Except.error e
          | Except.ok o => Except.ok ⟨o.y, o.canvas, line :: o.lines⟩ := rfl

/-! ## The wrap loop: emitted lines and instruction texts -/

theorem wrapLoop_instrs {P : OverlayParams} {os : Option TextStyle} :
    ∀ (words line : List String) (cwidth : Int) (fn : String) (sz : ℚ)
      (y : Int) (c : Canvas) (o : WrapOut),
      wrapLoop P os words line cwidth fn sz y c = Except.ok o →
      o.canvas.instrs.map DrawInstr.text =
          c.instrs.map DrawInstr.text ++ o.lines.map joinSp ∧
        o.lines.flatten = line ++ words := by
  intro words
  induction words with
  | nil =>
    intro line cwidth fn sz y c o h
    cases line with
    | nil =>
      rw [wrapLoop_nil_nil] at h
      injection h with h
      subst h
      simp
    | cons w ws =>
      rw [wrapLoop_nil_cons] at h
      split at h
      case h_1 e heq => exact Except.noConfusion h
      case h_2 b heq =>
        injection h with h
        subst h
        obtain ⟨hinstr, -, -⟩ := page_break_check_spec heq
        simp [Canvas.drawString, hinstr]
  | cons w ws ih =>
    intro line cwidth fn sz y c o h
    rw [wrapLoop_cons] at h
    split at h
    · obtain ⟨h1, h2⟩ := ih _ _ _ _ _ _ _ h
      refine ⟨h1, ?_⟩
      rw [h2]
      simp
    · split at h
      case h_1 e heq => exact Except.noConfusion h
      case h_2 b heq =>
        split at h
        case h_1 e heq2 => exact Except.noConfusion h
        case h_2 o' heq2 =>
          injection h with h
          subst h
          obtain ⟨h1, h2⟩ := ih _ _ _ _ _ _ _ heq2
          obtain ⟨hinstr, -, -⟩ := page_break_check_spec heq
          constructor
          · simp only [h1, Canvas.drawString, List.map_append, List.map_cons,
              List.map_nil, hinstr]
            simp
          · simp [h2]

/-! ## Page monotonicity: well-formedness is preserved by every primitive -/

theorem init_wf : Canvas.init.Wf :=
  ⟨List.Pairwise.nil, fun ι hι => absurd hι (List.not_mem_nil ι)⟩

theorem drawString_wf {c : Canvas} (hw : c.Wf) (x y : Int) (t : String) :
    (c.drawString x y t).Wf := by
  obtain ⟨h1, h2⟩ := hw
  constructor
  · show List.Pairwise (· ≤ ·)
      ((c.instrs ++ [(⟨c.page, x, y, t, c.font, c.size⟩ : DrawInstr)]).map DrawInstr.page)
    rw [List.map_append]
    refine List.pairwise_append.mpr ⟨h1, ?_, ?_⟩
    · simp
    · intro a ha pb hb
      simp only [List.map_cons, List.map_nil, List.mem_singleton] at hb
      subst hb
      simp only [List.mem_map] at ha
      obtain ⟨ι, hι, rfl⟩ := ha
      exact h2 ι hι
  · intro ι hι
    simp only [Canvas.drawString, List.mem_append, List.mem_singleton] at hι
    rcases hι with hι | hι
    · exact h2 ι hι
    · subst hι; exact le_refl _

theorem drawString_page (c : Canvas) (x y : Int) (t : String) :
    (c.drawString x y t).page = c.page := rfl

theorem setFont_wf {c c' : Canvas} {fn : String} {sz : ℚ}
    (h : c.setFont fn sz = Except.ok c') (hw : c.Wf) :
    c'.Wf ∧ c'.page = c.page ∧ c'.instrs = c.instrs := by
  obtain ⟨-, hc⟩ := setFont_ok h
  subst hc
  exact ⟨hw, rfl, rfl⟩

theorem page_break_check_wf {P : OverlayParams} {os : Option TextStyle}
    {fn : String} {sz : ℚ} {y : Int} {c : Canvas} {b : BreakOut}
    (hw : c.Wf) (h : page_break_check P os fn sz y c = Except.ok b) :
    b.canvas.Wf ∧ c.page ≤ b.canvas.page := by
  obtain ⟨hinstr, hpage, -⟩ := page_break_check_spec h
  have hw1 : List.Pairwise (· ≤ ·) (b.canvas.instrs.map DrawInstr.page) := by
    rw [hinstr]; exact hw.1
  have hw2 : ∀ ι ∈ b.canvas.instrs, ι.page ≤ b.canvas.page := by
    intro ι hι
    rw [hinstr] at hι
    rcases hpage with hp | hp
    · rw [hp]; exact hw.2 ι hι
    · rw [hp]; exact le_trans (hw.2 ι hι) (Nat.le_succ _)
  refine ⟨⟨hw1, hw2⟩, ?_⟩
  rcases hpage with hp | hp
  · rw [hp]
  · rw [hp]; exact Nat.le_succ _

theorem wrapLoop_wf {P : OverlayParams} {os : Option TextStyle} :
    ∀ (words line : List String) (cwidth : Int) (fn : String) (sz : ℚ)
      (y : Int) (c : Canvas) (o : WrapOut),
      wrapLoop P os words line cwidth fn sz y c = Except.ok o → c.Wf →
      o.canvas.Wf ∧ c.page ≤ o.canvas.page := by
  intro words
  induction words with
  | nil =>
    intro line cwidth fn sz y c o h hw
    cases line with
    | nil =>
      rw [wrapLoop_nil_nil] at h
      injection h with h
      subst h
      exact ⟨hw, le_refl _⟩
    | cons w ws =>
      rw [wrapLoop_nil_cons] at h
      split at h
      case h_1 => exact Except.noConfusion h
      case h_2 b heq =>
        injection h with h
        subst h
        obtain ⟨hbw, hbp⟩ := page_break_check_wf hw heq
        exact ⟨drawString_wf hbw _ _ _, hbp⟩
  | cons w ws ih =>
    intro line cwidth fn sz y c o h hw
    rw [wrapLoop_cons] at h
    split at h
    · exact ih _ _ _ _ _ _ _ h hw
    · split at h
      case h_1 => exact Except.noConfusion h
      case h_2 b heq =>
        split at h
        case h_1 => exact Except.noConfusion h
        case h_2 o' heq2 =>
          injection h with h
          subst h
          obtain ⟨hbw, hbp⟩ := page_break_check_wf hw heq
          obtain ⟨how, hop⟩ := ih _ _ _ _ _ _ _ heq2 (drawString_wf hbw _ _ _)
          exact ⟨how, le_trans hbp hop⟩

theorem draw_wrapped_text_wf {P : OverlayParams} {text : String} {y : Int}
    {style : Option TextStyle} {c : Canvas} {o : WrapOut}
    (h : draw_wrapped_text P text y style c = Except.ok o) (hw : c.Wf) :
    o.canvas.Wf ∧ c.page ≤ o.canvas.page := by
  unfold draw_wrapped_text at h
  split at h
  case h_1 => exact Except.noConfusion h
  case h_2 c1 heq =>
    obtain ⟨hw1, hp1, -⟩ := setFont_wf heq hw
    have h2 := wrapLoop_wf _ _ _ _ _ _ _ _ h hw1
    exact ⟨h2.1, le_trans (le_of_eq hp1.symm) h2.2⟩

theorem draw_kv_row_wf {P : OverlayParams} {lt ct : String}
    {ls cs : TextStyle} {y r : Int} {c c' : Canvas}
    (h : draw_kv_row P lt ct ls cs y c = Except.ok (r, c')) (hw : c.Wf) :
    c'.Wf ∧ c.page ≤ c'.page := by
  unfold draw_kv_row at h
  split at h
  case h_1 => exact Except.noConfusion h
  case h_2 c1 heq =>
    split at h
    case h_1 => exact Except.noConfusion h
    case h_2 c2 heq2 =>
      injection h with h
      injection h with h1 h2
      subst h2
      obtain ⟨hw1, hp1, -⟩ := setFont_wf heq hw
      obtain ⟨hw2, hp2, -⟩ := setFont_wf heq2 (drawString_wf hw1 (x_pos P) y lt)
      refine ⟨drawString_wf hw2 _ _ _, le_of_eq ?_⟩
      rw [drawString_page, hp2, drawString_page, hp1]

theorem draw_field_rows_wf {P : OverlayParams} {gfs : String → TextStyle} :
    ∀ (rows : List (String × String × String × String)) (y r : Int)
      (c c' : Canvas),
      draw_field_rows P gfs rows y c = Except.ok (r, c') → c.Wf →
      c'.Wf ∧ c.page ≤ c'.page := by
  intro rows
  induction rows with
  | nil =>
    intro y r c c' h hw
    unfold draw_field_rows at h
    injection h with h
    injection h with h1 h2
    subst h2
    exact ⟨hw, le_refl _⟩
  | cons row rest ih =>
    intro y r c c' h hw
    obtain ⟨lt, ct, lk, ck⟩ := row
    unfold draw_field_rows at h
    split at h
    case h_1 => exact Except.noConfusion h
    case h_2 p heq =>
      obtain ⟨y1, c1⟩ := p
      obtain ⟨h1w, h1p⟩ := draw_kv_row_wf heq hw
      obtain ⟨h2w, h2p⟩ := ih _ _ _ _ h h1w
      exact ⟨h2w, le_trans h1p h2p⟩

theorem draw_body_lines_wf {P : OverlayParams} {style : TextStyle} :
    ∀ (body : List String) (y r : Int) (c c' : Canvas),
      draw_body_lines P style body y c = Except.ok (r, c') → c.Wf →
      c'.Wf ∧ c.page ≤ c'.page := by
  intro body
  induction body with
  | nil =>
    intro y r c c' h hw
    unfold draw_body_lines at h
    injection h with h
    injection h with h1 h2
    subst h2
    exact ⟨hw, le_refl _⟩
  | cons line rest ih =>
    intro y r c c' h hw
    unfold draw_body_lines at h
    split at h
    · split at h
      case h_1 => exact Except.noConfusion h
      case h_2 o heq =>
        obtain ⟨h1w, h1p⟩ := draw_wrapped_text_wf heq hw
        obtain ⟨h2w, h2p⟩ := ih _ _ _ _ h h1w
        exact ⟨h2w, le_trans h1p h2p⟩
    · exact ih _ _ _ _ h hw

theorem draw_section_wf {P : OverlayParams} {gfs : String → TextStyle}
    {header lk ck : String} {body : List String} {y r : Int} {c c' : Canvas}
    (h : draw_section P gfs header lk ck body y c = Except.ok (r, c'))
    (hw : c.Wf) : c'.Wf ∧ c.page ≤ c'.page := by
  unfold draw_section at h
  split at h
  case h_1 => exact Except.noConfusion h
  case h_2 o heq =>
    obtain ⟨h1w, h1p⟩ := draw_wrapped_text_wf heq hw
    obtain ⟨h2w, h2p⟩ := draw_body_lines_wf _ _ _ _ _ h h1w
    exact ⟨h2w, le_trans h1p h2p⟩

theorem draw_sections_wf {P : OverlayParams} {gfs : String → TextStyle} :
    ∀ (secs : List (String × String × List String)) (y r : Int)
      (c c' : Canvas),
      draw_sections P gfs secs y c = Except.ok (r, c') → c.Wf →
      c'.Wf ∧ c.page ≤ c'.page := by
  intro secs
  induction secs with
  | nil =>
    intro y r c c' h hw
    unfold draw_sections at h
    injection h with h
    injection h with h1 h2
    subst h2
    exact ⟨hw, le_refl _⟩
  | cons sec rest ih =>
    intro y r c c' h hw
    obtain ⟨header, key, body⟩ := sec
    unfold draw_sections at h
    split at h
    case h_1 => exact Except.noConfusion h
    case h_2 p heq =>
      obtain ⟨y1, c1⟩ := p
      obtain ⟨h1w, h1p⟩ := draw_section_wf heq hw
      obtain ⟨h2w, h2p⟩ := ih _ _ _ _ h h1w
      exact ⟨h2w, le_trans h1p h2p⟩

theorem create_overlay_wf {wa : IntRect} {pw ph : Int}
    {cw : String → ℚ → Char → Int} {fs : String → Option TextStyle}
    {d : FormData} {cv : Canvas}
    (h : create_overlay wa pw ph cw fs d = Except.ok cv) : cv.Wf := by
  simp only [create_overlay] at h
  split at h
  case h_1 => exact Except.noConfusion h
  case h_2 p heq =>
    obtain ⟨y1, c1⟩ := p
    split at h
    case h_1 => exact Except.noConfusion h
    case h_2 p2 heq2 =>
      obtain ⟨y2, c2⟩ := p2
      split at h
      case h_1 => exact Except.noConfusion h
      case h_2 p3 heq3 =>
        obtain ⟨y3, c3⟩ := p3
        split at h
        case h_1 => exact Except.noConfusion h
        case h_2 o heq4 =>
          injection h with h
          subst h
          obtain ⟨h1w, -⟩ := draw_kv_row_wf heq init_wf
          obtain ⟨h2w, -⟩ := draw_field_rows_wf _ _ _ _ _ heq2 h1w
          obtain ⟨h3w, -⟩ := draw_sections_wf _ _ _ _ _ heq3 h2w
          obtain ⟨h4w, -⟩ := draw_wrapped_text_wf heq4 h3w
          exact h4w

/-! ## Width arithmetic -/

theorem line_height_pos : (0 : Int) < line_height := by decide

theorem margin_pos : (0 : Int) < margin := by decide

theorem stringWidth_append (P : OverlayParams) (fn : String) (sz : ℚ)
    (s t : String) :
    stringWidth P (s ++ t) fn sz = stringWidth P s fn sz + stringWidth P t fn sz := by
  simp [stringWidth, String.data_append]

theorem stringWidth_nonneg {P : OverlayParams}
    (hcw : ∀ fn sz ch, 0 ≤ P.cw fn sz ch) (s fn : String) (sz : ℚ) :
    0 ≤ stringWidth P s fn sz := by
  refine List.sum_nonneg ?_
  intro a ha
  simp only [List.mem_map] at ha
  obtain ⟨ch, -, rfl⟩ := ha
  exact hcw fn sz ch

theorem joinSp_singleton (w : String) : joinSp [w] = w := rfl

theorem lineWidth_nil (P : OverlayParams) (fn : String) (sz : ℚ) :
    lineWidth P fn sz [] = 0 := rfl

theorem lineWidth_cons (P : OverlayParams) (fn : String) (sz : ℚ)
    (w : String) (l : List String) :
    lineWidth P fn sz (w :: l) =
      stringWidth P (w ++ " ") fn sz + lineWidth P fn sz l := by
  simp [lineWidth]

theorem lineWidth_append_singleton (P : OverlayParams) (fn : String) (sz : ℚ)
    (l : List String) (w : String) :
    lineWidth P fn sz (l ++ [w]) =
      lineWidth P fn sz l + stringWidth P (w ++ " ") fn sz := by
  simp [lineWidth]

/-- The measured width of a joined line is at most the accumulated width of
its words, each counted with a trailing space. -/
theorem joinSp_width_le {P : OverlayParams}
    (hcw : ∀ fn sz ch, 0 ≤ P.cw fn sz ch) (fn : String) (sz : ℚ) :
    ∀ L : List String, stringWidth P (joinSp L) fn sz ≤ lineWidth P fn sz L := by
  intro L
  induction L with
  | nil => simp [joinSp, lineWidth, stringWidth]
  | cons w ws ih =>
    cases ws with
    | nil =>
      rw [joinSp_singleton, lineWidth_cons, lineWidth_nil, stringWidth_append]
      have h1 := stringWidth_nonneg hcw " " fn sz
      linarith
    | cons w2 ws2 =>
      show stringWidth P (w ++ " " ++ joinSp (w2 :: ws2)) fn sz ≤ _
      rw [stringWidth_append, stringWidth_append, lineWidth_cons,
        stringWidth_append]
      linarith [ih]

/-- Property of any line actually flushed by the loop: it fits, or it is a
single oversized input token. -/
theorem flush_line_prop {P : OverlayParams} {fn0 : String} {sz0 : ℚ}
    {toks : List String}
    (hcw : ∀ fn sz ch, 0 ≤ P.cw fn sz ch)
    (line : List String) (cwidth : Int)
    (hlw : cwidth = lineWidth P fn0 sz0 line)
    (hsing : cwidth ≤ available_width P ∨ ∃ w, line = [w])
    (hlmem : ∀ w ∈ line, w ∈ toks) :
    stringWidth P (joinSp line) fn0 sz0 ≤ available_width P ∨
      ∃ w, line = [w] ∧ w ∈ toks ∧
        available_width P < stringWidth P w fn0 sz0 := by
  rcases hsing with hle | ⟨w, rfl⟩
  · rw [hlw] at hle
    exact Or.inl (le_trans (joinSp_width_le hcw _ _ _) hle)
  · by_cases hsw : stringWidth P w fn0 sz0 ≤ available_width P
    · left
      rw [joinSp_singleton]
      exact hsw
    · right
      exact ⟨w, rfl, hlmem w (by simp), lt_of_not_le hsw⟩

/-- Wrap-width invariant for the loop, under a stable font. -/
theorem wrapLoop_width {P : OverlayParams} {os : Option TextStyle}
    {fn0 : String} {sz0 : ℚ}
    (hcw : ∀ fn sz ch, 0 ≤ P.cw fn sz ch)
    (hfh : FontHyp os fn0 sz0) (hst : fontStable os)
    (toks : List String) :
    ∀ (words line : List String) (cwidth : Int) (y : Int) (c : Canvas)
      (o : WrapOut),
      wrapLoop P os words line cwidth fn0 sz0 y c = Except.ok o →
      cwidth = lineWidth P fn0 sz0 line →
      (cwidth ≤ available_width P ∨ ∃ w, line = [w]) →
      (∀ w ∈ line, w ∈ toks) → (∀ w ∈ words, w ∈ toks) →
      ∀ L ∈ o.lines,
        stringWidth P (joinSp L) fn0 sz0 ≤ available_width P ∨
          ∃ w, L = [w] ∧ w ∈ toks ∧
            available_width P < stringWidth P w fn0 sz0 := by
  intro words
  induction words with
  | nil =>
    intro line cwidth y c o h hlw hsing hlmem hwmem L hL
    cases line with
    | nil =>
      rw [wrapLoop_nil_nil] at h
      injection h with h
      subst h
      simp at hL
    | cons w ws =>
      rw [wrapLoop_nil_cons] at h
      split at h
      case h_1 => exact Except.noConfusion h
      case h_2 b heq =>
        injection h with h
        subst h
        simp only [List.mem_singleton] at hL
        subst hL
        exact flush_line_prop hcw _ _ hlw hsing hlmem
  | cons w ws ih =>
    intro line cwidth y c o h hlw hsing hlmem hwmem L hL
    rw [wrapLoop_cons] at h
    split at h
    case isTrue hfits =>
      refine ih _ _ _ _ _ h ?_ (Or.inl hfits) ?_ ?_ L hL
      · rw [lineWidth_append_singleton, hlw]
      · intro x hx
        rcases List.mem_append.mp hx with hx | hx
        · exact hlmem x hx
        · simp only [List.mem_singleton] at hx
          subst hx
          exact hwmem x (by simp)
      · intro x hx
        exact hwmem x (by simp [hx])
    case isFalse hnofit =>
      split at h
      case h_1 => exact Except.noConfusion h
      case h_2 b heq =>
        split at h
        case h_1 => exact Except.noConfusion h
        case h_2 o' heq2 =>
          injection h with h
          subst h
          obtain ⟨hbfn, hbsz⟩ := page_break_check_font hfh hst heq
          simp only [List.mem_cons] at hL
          rcases hL with rfl | hL
          · exact flush_line_prop hcw _ _ hlw hsing hlmem
          · rw [hbfn, hbsz] at heq2
            refine ih _ _ _ _ _ heq2 ?_ (Or.inr ⟨w, rfl⟩) ?_ ?_ L hL
            · rw [lineWidth_cons, lineWidth_nil, add_zero]
            · intro x hx
              simp only [List.mem_singleton] at hx
              subst hx
              exact hwmem x (by simp)
            · intro x hx
              exact hwmem x (by simp [hx])

/-! ## Vertical bounds of the wrapped-text instructions -/

theorem wrapLoop_ybounds {P : OverlayParams} {os : Option TextStyle}
    (hwh : margin ≤ P.work_height) :
    ∀ (words line : List String) (cwidth : Int) (fn : String) (sz : ℚ)
      (y : Int) (c : Canvas) (o : WrapOut),
      wrapLoop P os words line cwidth fn sz y c = Except.ok o →
      y ≤ initial_y_pos P →
      (∀ ι ∈ o.canvas.instrs, ι ∈ c.instrs ∨
        (P.y_offset ≤ ι.y ∧ ι.y ≤ initial_y_pos P)) ∧
        o.y ≤ initial_y_pos P := by
  intro words
  induction words with
  | nil =>
    intro line cwidth fn sz y c o h hy
    cases line with
    | nil =>
      rw [wrapLoop_nil_nil] at h
      injection h with h
      subst h
      exact ⟨fun ι hι => Or.inl hι, hy⟩
    | cons w ws =>
      rw [wrapLoop_nil_cons] at h
      split at h
      case h_1 => exact Except.noConfusion h
      case h_2 b heq =>
        injection h with h
        subst h
        obtain ⟨hinstr, -, hcases⟩ := page_break_check_spec heq
        have hby : P.y_offset ≤ b.y ∧ b.y ≤ initial_y_pos P := by
          rcases hcases with ⟨hge, rfl⟩ | ⟨-, hby, -⟩
          · dsimp only
            constructor
            · have := line_height_pos
              omega
            · exact hy
          · rw [hby]
            constructor
            · unfold initial_y_pos
              omega
            · exact le_refl _
        constructor
        · intro ι hι
          simp only [Canvas.drawString, List.mem_append, List.mem_singleton] at hι
          rcases hι with hι | hι
          · rw [hinstr] at hι
            exact Or.inl hι
          · subst hι
            exact Or.inr hby
        · dsimp only
          have := line_height_pos
          omega
  | cons w ws ih =>
    intro line cwidth fn sz y c o h hy
    rw [wrapLoop_cons] at h
    split at h
    case isTrue => exact ih _ _ _ _ _ _ _ h hy
    case isFalse =>
      split at h
      case h_1 => exact Except.noConfusion h
      case h_2 b heq =>
        split at h
        case h_1 => exact Except.noConfusion h
        case h_2 o' heq2 =>
          injection h with h
          subst h
          obtain ⟨hinstr, -, hcases⟩ := page_break_check_spec heq
          have hby : P.y_offset ≤ b.y ∧ b.y ≤ initial_y_pos P := by
            rcases hcases with ⟨hge, rfl⟩ | ⟨-, hby, -⟩
            · dsimp only
              constructor
              · have := line_height_pos
                omega
              · exact hy
            · rw [hby]
              constructor
              · unfold initial_y_pos
                omega
              · exact le_refl _
          have hy2 : b.y - line_height ≤ initial_y_pos P := by
            have := line_height_pos
            omega
          obtain ⟨hmem, hfin⟩ := ih _ _ _ _ _ _ _ heq2 hy2
          refine ⟨?_, hfin⟩
          intro ι hι
          rcases hmem ι hι with hι2 | hι2
          · simp only [Canvas.drawString, List.mem_append, List.mem_singleton] at hι2
            rcases hι2 with hι2 | hι2
            · rw [hinstr] at hι2
              exact Or.inl hι2
            · subst hι2
              exact Or.inr hby
          · exact Or.inr hι2

/-! ## Instruction-stream extension and the oversized-token flush -/

theorem wrapLoop_extends {P : OverlayParams} {os : Option TextStyle} :
    ∀ (words line : List String) (cwidth : Int) (fn : String) (sz : ℚ)
      (y : Int) (c : Canvas) (o : WrapOut),
      wrapLoop P os words line cwidth fn sz y c = Except.ok o →
      ∃ tail, o.canvas.instrs = c.instrs ++ tail := by
  intro words
  induction words with
  | nil =>
    intro line cwidth fn sz y c o h
    cases line with
    | nil =>
      rw [wrapLoop_nil_nil] at h
      injection h with h
      subst h
      exact ⟨[], by simp⟩
    | cons w ws =>
      rw [wrapLoop_nil_cons] at h
      split at h
      case h_1 => exact Except.noConfusion h
      case h_2 b heq =>
        injection h with h
        subst h
        obtain ⟨hinstr, -, -⟩ := page_break_check_spec heq
        refine ⟨[⟨b.canvas.page, x_pos P, b.y, joinSp (w :: ws),
          b.canvas.font, b.canvas.size⟩], ?_⟩
        simp only [Canvas.drawString, hinstr]
  | cons w ws ih =>
    intro line cwidth fn sz y c o h
    rw [wrapLoop_cons] at h
    split at h
    · exact ih _ _ _ _ _ _ _ h
    · split at h
      case h_1 => exact Except.noConfusion h
      case h_2 b heq =>
        split at h
        case h_1 => exact Except.noConfusion h
        case h_2 o' heq2 =>
          injection h with h
          subst h
          obtain ⟨tail2, htail2⟩ := ih _ _ _ _ _ _ _ heq2
          obtain ⟨hinstr, -, -⟩ := page_break_check_spec heq
          refine ⟨⟨b.canvas.page, x_pos P, b.y, joinSp line,
            b.canvas.font, b.canvas.size⟩ :: tail2, ?_⟩
          show o'.canvas.instrs = _
          rw [htail2]
          simp only [Canvas.drawString, hinstr, List.append_assoc,
            List.cons_append, List.nil_append]

/-- Once the pending line holds a single token that is already wider than
the available width, the very next flush draws exactly that token at the
current position (assuming the current position does not overflow). -/
theorem wrapLoop_singleton_flush {P : OverlayParams} {os : Option TextStyle}
    (hcw : ∀ fn sz ch, 0 ≤ P.cw fn sz ch) :
    ∀ (words : List String) (w : String) (cwidth : Int) (fn : String)
      (sz : ℚ) (y : Int) (c : Canvas) (o : WrapOut),
      wrapLoop P os words [w] cwidth fn sz y c = Except.ok o →
      available_width P < cwidth →
      ¬ (y - line_height < P.y_offset) →
      ∃ tail, o.canvas.instrs =
        c.instrs ++ (⟨c.page, x_pos P, y, w, c.font, c.size⟩ : DrawInstr) :: tail := by
  intro words
  cases words with
  | nil =>
    intro w cwidth fn sz y c o h hover hnb
    rw [wrapLoop_nil_cons] at h
    split at h
    case h_1 => exact Except.noConfusion h
    case h_2 b heq =>
      injection h with h
      subst h
      rcases (page_break_check_spec heq).2.2 with ⟨-, rfl⟩ | ⟨hlt, -, -⟩
      · exact ⟨[], by simp [Canvas.drawString, joinSp_singleton]⟩
      · exact absurd hlt hnb
  | cons w2 ws =>
    intro w cwidth fn sz y c o h hover hnb
    rw [wrapLoop_cons] at h
    split at h
    case isTrue hfits =>
      exact absurd hfits
        (by have := stringWidth_nonneg hcw (w2 ++ " ") fn sz; omega)
    case isFalse =>
      split at h
      case h_1 => exact Except.noConfusion h
      case h_2 b heq =>
        split at h
        case h_1 => exact Except.noConfusion h
        case h_2 o' heq2 =>
          injection h with h
          subst h
          rcases (page_break_check_spec heq).2.2 with ⟨-, rfl⟩ | ⟨hlt, -, -⟩
          · obtain ⟨tail2, htail2⟩ := wrapLoop_extends _ _ _ _ _ _ _ _ heq2
            refine ⟨tail2, ?_⟩
            show o'.canvas.instrs = _
            rw [htail2]
            simp [Canvas.drawString, joinSp_singleton]
          · exact absurd hlt hnb

/-! ## The merge loop -/

theorem mergeLoop_ok {nTemplate nOverlay : Nat} (hT : 0 < nTemplate) :
    ∀ l : List Nat,
      mergeLoop nTemplate nOverlay l =
        some (l.map (mergedPage nTemplate nOverlay)) := by
  intro l
  induction l with
  | nil => rfl
  | cons i is ih =>
    unfold mergeLoop
    have hsel : (if i < nTemplate then some (⟨i, []⟩ : PdfPage)
        else (readerPages nTemplate).get? 0) =
        some (if i < nTemplate then (⟨i, []⟩ : PdfPage) else ⟨0, []⟩) := by
      split
      · rfl
      · cases nTemplate with
        | zero => exact absurd hT (lt_irrefl 0)
        | succ n => simp [readerPages, List.range_succ_eq_map]
    rw [hsel, ih]
    rfl

theorem merge_pdfs_ok {nTemplate nOverlay : Nat} (hT : 0 < nTemplate) :
    merge_pdfs nTemplate nOverlay =
      some ((List.range (max nTemplate nOverlay)).map
        (mergedPage nTemplate nOverlay)) :=
  mergeLoop_ok hT _

/-! ## The claims -/

/-- C1, counterexample.  The claim asserts `merge(bg, ov)` has length
`max(bg.length, ov.length)` for all inputs *including* `bg.length == 0`.
With an empty background and a one-page overlay the loop body executes
`PdfReader(template_path).pages[0]` on a zero-page file, which raises
`IndexError`: the merge aborts and no output sequence is produced at all. -/
theorem c1_counterexample : merge_pdfs 0 1 = none := by decide

/-- C1, amended: whenever the background has at least one page — or the
overlay is empty, so the loop never needs a spare background page — the
merge succeeds and the output has exactly `max(bg.length, ov.length)`
pages. -/
theorem c1_merge_length (nTemplate nOverlay : Nat)
    (h : 0 < nTemplate ∨ nOverlay = 0) :
    ∃ out, merge_pdfs nTemplate nOverlay = some out ∧
      out.length = max nTemplate nOverlay := by
  rcases h with hT | rfl
  · exact ⟨_, merge_pdfs_ok hT, by simp⟩
  · rcases Nat.eq_zero_or_pos nTemplate with rfl | hT
    · exact ⟨[], rfl, rfl⟩
    · exact ⟨_, merge_pdfs_ok hT, by simp⟩

/-- C1, witness for the amended claim at background 2 pages, overlay 3. -/
theorem c1_merge_length_witness :
    ∃ out, merge_pdfs 2 3 = some out ∧ out.length = max 2 3 :=
  c1_merge_length 2 3 (Or.inl (by decide))

/-- C3, counterexample.  The merged output is not written to a temporary
location and moved: `generate_pdf` hands the user-chosen save path straight
to `merge_pdfs`, whose event trace opens the save path itself for
(truncating) writing and never performs any move; a failure after the
`open` but before the write completes (event prefix of length 3) leaves a
partial (truncated) file at the save path. -/
theorem c3_counterexample :
    ((generate_pdf_events 1 1 "overlay.tmp" "out.pdf").all
        (fun e => !e.isMove)) = true ∧
      GenEv.openedOutput "out.pdf" ∈
        generate_pdf_events 1 1 "overlay.tmp" "out.pdf" ∧
      outFileStateAt "out.pdf"
        ((generate_pdf_events 1 1 "overlay.tmp" "out.pdf").take 3) =
        OutFileState.truncated := by
  refine ⟨by decide, by decide, by decide⟩

/-- C3, amended: no move/rename is ever performed on any path; the writer is
assembled fully in memory before the save path is opened, so a failure
*during the merge* leaves the save path untouched, and a completed run
leaves a complete file — but the write happens directly at the save path
(see the counterexample for the partial-file window). -/
theorem c3_direct_write (nTemplate nOverlay : Nat) (tmp save : String) :
    (∀ e ∈ generate_pdf_events nTemplate nOverlay tmp save,
        e.isMove = false) ∧
      (merge_pdfs nTemplate nOverlay = none →
        outFileStateAt save (generate_pdf_events nTemplate nOverlay tmp save) =
          OutFileState.absent) ∧
      ∀ out, merge_pdfs nTemplate nOverlay = some out →
        outFileStateAt save (generate_pdf_events nTemplate nOverlay tmp save) =
          OutFileState.complete := by
  unfold generate_pdf_events merge_pdfs_events
  refine ⟨?_, ?_, ?_⟩
  · intro e he
    cases hmp : merge_pdfs nTemplate nOverlay with
    | none =>
      rw [hmp] at he
      simp only [List.mem_cons, List.not_mem_nil, or_false] at he
      subst he
      rfl
    | some out =>
      rw [hmp] at he
      simp only [List.mem_cons, List.not_mem_nil, or_false] at he
      rcases he with rfl | rfl | rfl | rfl <;> rfl
  · intro hnone
    rw [hnone]
    rfl
  · intro out hout
    rw [hout]
    simp [outFileStateAt, outFileStep]

/-- C3, witness for the amended claim: with an empty background the merge
raises before any file-system access, and the save path stays absent. -/
theorem c3_direct_write_witness :
    (∀ e ∈ generate_pdf_events 0 1 "overlay.tmp" "save.pdf",
        e.isMove = false) ∧
      outFileStateAt "save.pdf" (generate_pdf_events 0 1 "overlay.tmp" "save.pdf") =
        OutFileState.absent :=
  ⟨(c3_direct_write 0 1 "overlay.tmp" "save.pdf").1,
    (c3_direct_write 0 1 "overlay.tmp" "save.pdf").2.1 (by decide)⟩

/-- C4 (code bug).  The initial font resolution of `draw_wrapped_text`
substitutes the unsupported family "Arial" with Helvetica, but the style
re-application after a page break uses the raw requested family with no
substitution: it asks the canvas for the font "Arial", which is not a
built-in font, so `setFont` raises and `create_overlay` aborts — on a
concrete run, a one-word text flushed at the bottom of the working area
dies with exactly that error instead of recovering. -/
theorem c4_reapply_no_substitution :
    initialFontName arial_style = "Helvetica" ∧
      reappliedFontName arial_style = "Arial" ∧
      "Arial" ∉ reportlab_fonts ∧
      draw_wrapped_text P_c4 "hola" 100 (some arial_style) Canvas.init =
        Except.error "Arial" := by
  refine ⟨by decide, by decide, by decide, by rfl⟩

/-- C2.  Every line drawn by `draw_wrapped_text` (beyond whatever was on the
canvas before the call) measures at most the available width under the
call's resolved font, except that an oversized whitespace-separated token of
the input is drawn as a line consisting of exactly that token.  Hypotheses:
per-character widths are non-negative, the available width is non-negative,
and the style's page-break re-application cannot silently change the font
(`fontStable` — which holds for every style reachable through the UI, whose
font picker offers only the three supported families). -/
theorem c2_wrap_width_invariant (P : OverlayParams) (text : String)
    (y0 : Int) (style : Option TextStyle) (c0 : Canvas)
    (hcw : ∀ fn sz ch, 0 ≤ P.cw fn sz ch)
    (havail : 0 ≤ available_width P)
    (hst : fontStable style) :
    ∀ ι ∈ wrapInstrs (draw_wrapped_text P text y0 style c0),
      ι ∈ c0.instrs ∨
        stringWidth P ι.text (resolvedFont style).1 (resolvedFont style).2 ≤
            available_width P ∨
          (ι.text ∈ pySplit text ∧
            available_width P <
              stringWidth P ι.text (resolvedFont style).1 (resolvedFont style).2) := by
  intro ι hι
  cases hrun : draw_wrapped_text P text y0 style c0 with
  | error e =>
    rw [hrun] at hι
    simp [wrapInstrs] at hι
  | ok o =>
    rw [hrun] at hι
    simp only [wrapInstrs] at hι
    unfold draw_wrapped_text at hrun
    split at hrun
    case h_1 => exact Except.noConfusion hrun
    case h_2 c1 heq =>
      obtain ⟨-, hc1⟩ := setFont_ok heq
      subst hc1
      obtain ⟨htext, -⟩ := wrapLoop_instrs _ _ _ _ _ _ _ _ hrun
      obtain ⟨tail, htail⟩ := wrapLoop_extends _ _ _ _ _ _ _ _ hrun
      have hW := wrapLoop_width hcw (by cases style with
          | none => trivial
          | some s => exact ⟨rfl, rfl⟩) hst (pySplit text) _ _ _ _ _ _ hrun
        (lineWidth_nil P _ _).symm (Or.inl havail)
        (fun w hw => absurd hw (List.not_mem_nil w)) (fun w hw => hw)
      rw [htail] at hι htext
      rw [List.map_append] at htext
      have hmap : tail.map DrawInstr.text = o.lines.map joinSp :=
        List.append_cancel_left htext
      rcases List.mem_append.mp hι with hι | hι
      · exact Or.inl hι
      · right
        have hιtext : ι.text ∈ o.lines.map joinSp := by
          rw [← hmap]
          exact List.mem_map_of_mem DrawInstr.text hι
        obtain ⟨L, hL, hLtext⟩ := List.mem_map.mp hιtext
        rcases hW L hL with hle | ⟨w, rfl, hwmem, hwlt⟩
        · rw [← hLtext]
          exact Or.inl hle
        · rw [← hLtext, joinSp_singleton]
          exact Or.inr ⟨hwmem, hwlt⟩

/-- C2, witness: a bold-Helvetica styled paragraph on a fresh canvas draws
the single line `iC2`, which satisfies the width invariant. -/
theorem c2_wrap_width_invariant_witness :
    iC2 ∈ Canvas.init.instrs ∨
      stringWidth P_w iC2.text (resolvedFont (some style_hb)).1
          (resolvedFont (some style_hb)).2 ≤ available_width P_w ∨
        (iC2.text ∈ pySplit "hola mundo" ∧
          available_width P_w <
            stringWidth P_w iC2.text (resolvedFont (some style_hb)).1
              (resolvedFont (some style_hb)).2) :=
  c2_wrap_width_invariant P_w "hola mundo" 200 (some style_hb) Canvas.init
    (fun _ _ _ => (by decide : (0 : Int) ≤ 1)) (by decide) (Or.inl rfl) iC2
    (List.mem_cons_self iC2 [])

/-- C5, counterexample.  The key/value header rows of `create_overlay` are
drawn with no overflow check: on a successful concrete run with a 30 pt
tall working area (bottom edge at y = 842 - 700 - 30 = 112), some emitted
instruction lies strictly below the working area's bottom edge. -/
theorem c5_counterexample :
    (match create_overlay waC 595 842 cwOne initial_field_styles dataC with
      | Except.ok cv => cv.instrs.any (fun ι => decide (ι.y < 842 - 700 - 30))
      | Except.error _ => false) = true := by decide

/-- C5, amended: the instructions emitted by `draw_wrapped_text` itself
(section headers and wrapped body lines) do stay inside the working area —
every such instruction sits between the bottom edge and the initial top
position — provided the working area is at least `margin` tall and the
entry position is not above the top.  The fixed key/value header rows are
not covered: they perform no overflow check (see the counterexample). -/
theorem c5_wrapped_text_in_area (P : OverlayParams) (text : String)
    (y0 : Int) (style : Option TextStyle) (c0 : Canvas)
    (hwh : margin ≤ P.work_height) (hy : y0 ≤ initial_y_pos P) :
    ∀ ι ∈ wrapInstrs (draw_wrapped_text P text y0 style c0),
      ι ∈ c0.instrs ∨ (P.y_offset ≤ ι.y ∧ ι.y ≤ initial_y_pos P) := by
  intro ι hι
  cases hrun : draw_wrapped_text P text y0 style c0 with
  | error e =>
    rw [hrun] at hι
    simp [wrapInstrs] at hι
  | ok o =>
    rw [hrun] at hι
    simp only [wrapInstrs] at hι
    unfold draw_wrapped_text at hrun
    split at hrun
    case h_1 => exact Except.noConfusion hrun
    case h_2 c1 heq =>
      obtain ⟨-, hc1⟩ := setFont_ok heq
      subst hc1
      obtain ⟨hmem, -⟩ := wrapLoop_ybounds hwh _ _ _ _ _ _ _ _ hrun hy
      exact hmem ι hι

/-- C5, witness for the amended claim: the single instruction `iC5` of a
concrete run lies inside the working area. -/
theorem c5_wrapped_text_in_area_witness :
    iC5 ∈ Canvas.init.instrs ∨
      (P_w.y_offset ≤ iC5.y ∧ iC5.y ≤ initial_y_pos P_w) :=
  c5_wrapped_text_in_area P_w "hola mundo" 150 none Canvas.init (by decide)
    (by decide) iC5 (List.mem_cons_self iC5 [])

/-- C6.  (a) Over any complete `create_overlay` run, the page indices of the
emitted instruction stream are non-decreasing.  (b) The page-break check
never decreases the page, and whenever it does break the page, the write
position it returns is exactly the initial position of a fresh page
(`y_offset + work_height - margin`, the same expression as line 1022). -/
theorem c6_pagination_monotone :
    (∀ (wa : IntRect) (pw ph : Int) (cw : String → ℚ → Char → Int)
        (fs : String → Option TextStyle) (d : FormData),
        List.Pairwise (· ≤ ·)
          ((overlayInstrs (create_overlay wa pw ph cw fs d)).map
            DrawInstr.page)) ∧
      ∀ (P : OverlayParams) (os : Option TextStyle) (fn : String) (sz : ℚ)
        (y : Int) (c : Canvas) (b : BreakOut),
        page_break_check P os fn sz y c = Except.ok b →
        c.page ≤ b.canvas.page ∧
          (b.canvas.page ≠ c.page → b.y = initial_y_pos P) := by
  constructor
  · intro wa pw ph cw fs d
    cases hrun : create_overlay wa pw ph cw fs d with
    | error e => simp [overlayInstrs]
    | ok cv =>
      simp only [overlayInstrs]
      exact (create_overlay_wf hrun).1
  · intro P os fn sz y c b h
    obtain ⟨-, hpage, hcases⟩ := page_break_check_spec h
    constructor
    · rcases hpage with hp | hp
      · rw [hp]
      · rw [hp]
        exact Nat.le_succ _
    · intro hne
      rcases hcases with ⟨-, rfl⟩ | ⟨-, hby, -⟩
      · exact absurd rfl hne
      · exact hby

/-- C6, witness: the concrete overlay run of the counterexample working
area has a monotone page stream, and a concrete breaking `page_break_check`
call resets the position to the fresh-page top. -/
theorem c6_pagination_monotone_witness :
    List.Pairwise (· ≤ ·)
      ((overlayInstrs (create_overlay waC 595 842 cwOne initial_field_styles
        dataC)).map DrawInstr.page) ∧
      b_brk.y = initial_y_pos P_brk :=
  ⟨c6_pagination_monotone.1 waC 595 842 cwOne initial_field_styles dataC,
    (c6_pagination_monotone.2 P_brk none "Helvetica" DEFAULT_FONT_SIZE 105
      Canvas.init b_brk rfl).2 (by decide)⟩

/-- C7.  When the overlay outruns the background (output index at or past
the background page count, background non-empty), the output page's
background is a fresh clean copy of background page 0 — never a later page,
and carrying no overlay content except the single overlay page merged for
this very index. -/
theorem c7_extra_pages_clean_first (nTemplate nOverlay : Nat)
    (hT : 0 < nTemplate) (i : Nat) (hi : nTemplate ≤ i) :
    ∀ out, merge_pdfs nTemplate nOverlay = some out →
      ∀ h : i < out.length,
        out.get ⟨i, h⟩ =
          ⟨0, if i < nOverlay then [i] else []⟩ := by
  intro out hout h
  rw [merge_pdfs_ok hT] at hout
  injection hout with hout
  subst hout
  rw [List.get_eq_getElem]
  simp only [List.getElem_map, List.getElem_range]
  simp only [mergedPage]
  rw [show (if i < nTemplate then (⟨i, []⟩ : PdfPage) else ⟨0, []⟩) = ⟨0, []⟩
    from if_neg (by omega)]
  by_cases hio : i < nOverlay
  · rw [if_pos hio, if_pos hio]
    simp [merge_page]
  · rw [if_neg hio, if_neg hio]

/-- C7, witness: background 1 page, overlay 3 pages; output page 1 is a
clean copy of background page 0 stamped only with overlay page 1. -/
theorem c7_extra_pages_clean_first_witness :
    merge_pdfs 1 3 = some outC7 ∧
      outC7.get ⟨1, by decide⟩ = ⟨0, [1]⟩ := by
  refine ⟨by decide, ?_⟩
  have h := c7_extra_pages_clean_first 1 3 (by decide) 1 (by decide) outC7
    (by decide) (by decide)
  exact h

theorem pyInt_nonneg {q : ℚ} (hq : 0 ≤ q) : 0 ≤ pyInt q := by
  unfold pyInt
  rw [if_pos hq]
  exact Int.le_floor.mpr (by exact_mod_cast hq)

/-- C8.  A selection narrower or shorter than 10 preview pixels is rejected
(the pipeline yields no working area at all), and any working area the
pipeline does produce has non-negative width and height (the scale factor
is positive). -/
theorem c8_selection_threshold (sx sy ex ey : Int) (pdf_rect : IntRect)
    (scale_factor : ℚ) (hs : 0 < scale_factor) :
    ((qrectNormalized sx sy ex ey).w < 10 ∨
        (qrectNormalized sx sy ex ey).h < 10 →
        workingAreaOf sx sy ex ey pdf_rect scale_factor = none) ∧
      ∀ r, workingAreaOf sx sy ex ey pdf_rect scale_factor = some r →
        0 ≤ r.w ∧ 0 ≤ r.h := by
  constructor
  · intro hsmall
    unfold workingAreaOf mouse_release_selection
    rw [if_pos hsmall]
    rfl
  · intro r hr
    unfold workingAreaOf mouse_release_selection at hr
    split at hr
    · exact Option.noConfusion hr
    · unfold get_selection_rect at hr
      injection hr with hr
      subst hr
      dsimp only
      constructor
      · refine pyInt_nonneg (div_nonneg ?_ (le_of_lt hs))
        have : (0 : Int) ≤ (qrectNormalized sx sy ex ey).w := by
          unfold qrectNormalized
          positivity
        exact_mod_cast this
      · refine pyInt_nonneg (div_nonneg ?_ (le_of_lt hs))
        have : (0 : Int) ≤ (qrectNormalized sx sy ex ey).h := by
          unfold qrectNormalized
          positivity
        exact_mod_cast this

/-- C8, witness: a 4 x 4 pixel drag is rejected as no selection. -/
theorem c8_selection_threshold_witness :
    workingAreaOf 0 0 3 3 pdfC 2 = none :=
  (c8_selection_threshold 0 0 3 3 pdfC 2 two_pos).1 (Or.inl (by decide))

/-- C9.  The greedy wrap never splits a token: the lines flushed by a
`draw_wrapped_text` call are token lists whose in-order concatenation is
exactly the whitespace-token sequence of the input, and the texts the call
draws are precisely the space-joins of those lines, in order. -/
theorem c9_tokens_preserved (P : OverlayParams) (text : String) (y0 : Int)
    (style : Option TextStyle) (c0 : Canvas) (o : WrapOut)
    (h : draw_wrapped_text P text y0 style c0 = Except.ok o) :
    o.lines.flatten = pySplit text ∧
      o.canvas.instrs.map DrawInstr.text =
        c0.instrs.map DrawInstr.text ++ o.lines.map joinSp := by
  unfold draw_wrapped_text at h
  split at h
  case h_1 => exact Except.noConfusion h
  case h_2 c1 heq =>
    obtain ⟨-, hc1⟩ := setFont_ok heq
    subst hc1
    obtain ⟨htext, hflat⟩ := wrapLoop_instrs _ _ _ _ _ _ _ _ h
    constructor
    · simpa using hflat
    · exact htext

/-- C9, witness: a two-word text on a fresh canvas. -/
theorem c9_tokens_preserved_witness :
    oC9.lines.flatten = pySplit "ab cd" ∧
      oC9.canvas.instrs.map DrawInstr.text =
        Canvas.init.instrs.map DrawInstr.text ++ oC9.lines.map joinSp :=
  c9_tokens_preserved P_w "ab cd" 200 none Canvas.init oC9 rfl

/-- C10.  When the first token of the text is wider (with its trailing
space) than the available width, the call first draws an *empty* line at
the current position, moves down one line height, and only then draws the
oversized token on its own line — consuming one extra line of vertical
space.  (Hypotheses: non-negative character widths and no page break
pending at either of the two flushes.) -/
theorem c10_oversized_first_token (P : OverlayParams) (text : String)
    (y0 : Int) (style : Option TextStyle) (c0 : Canvas) (w : String)
    (ws : List String) (o : WrapOut)
    (hcw : ∀ fn sz ch, 0 ≤ P.cw fn sz ch)
    (hsplit : pySplit text = w :: ws)
    (hover : available_width P <
      stringWidth P (w ++ " ") (resolvedFont style).1 (resolvedFont style).2)
    (hnb1 : ¬ (y0 - line_height < P.y_offset))
    (hnb2 : ¬ ((y0 - line_height) - line_height < P.y_offset))
    (h : draw_wrapped_text P text y0 style c0 = Except.ok o) :
    ∃ tail, o.canvas.instrs =
      c0.instrs ++
        (⟨c0.page, x_pos P, y0, "", (resolvedFont style).1,
          (resolvedFont style).2⟩ : DrawInstr) ::
        (⟨c0.page, x_pos P, y0 - line_height, w, (resolvedFont style).1,
          (resolvedFont style).2⟩ : DrawInstr) :: tail := by
  unfold draw_wrapped_text at h
  split at h
  case h_1 => exact Except.noConfusion h
  case h_2 c1 heq =>
    obtain ⟨-, hc1⟩ := setFont_ok heq
    subst hc1
    rw [hsplit, wrapLoop_cons] at h
    rw [if_neg (by rw [zero_add]; exact not_le.mpr hover)] at h
    split at h
    case h_1 => exact Except.noConfusion h
    case h_2 b heq2 =>
      split at h
      case h_1 => exact Except.noConfusion h
      case h_2 o' heq3 =>
        injection h with h
        subst h
        rcases (page_break_check_spec heq2).2.2 with ⟨-, rfl⟩ | ⟨hlt, -, -⟩
        · obtain ⟨tail, htail⟩ := wrapLoop_singleton_flush hcw _ _ _ _ _ _ _ _
            heq3 hover hnb2
          refine ⟨tail, ?_⟩
          show o'.canvas.instrs = _
          rw [htail]
          show ((c0.instrs ++ _) ++ _ :: tail) = _
          rw [List.append_assoc]
          rfl
        · exact absurd hlt hnb1

/-- C10, witness: available width 2, token "abc" of width 4 (trailing space
included): an empty line at y = 100, then the token alone at y = 86. -/
theorem c10_oversized_first_token_witness :
    ∃ tail, oC10.canvas.instrs =
      Canvas.init.instrs ++
        (⟨Canvas.init.page, x_pos P_c10, 100, "", (resolvedFont none).1,
          (resolvedFont none).2⟩ : DrawInstr) ::
        (⟨Canvas.init.page, x_pos P_c10, 100 - line_height, "abc",
          (resolvedFont none).1, (resolvedFont none).2⟩ : DrawInstr) :: tail :=
  c10_oversized_first_token P_c10 "abc" 100 none Canvas.init "abc" [] oC10
    (fun _ _ _ => (by decide : (0 : Int) ≤ 1)) (by decide) (by decide)
    (by decide) (by decide) rfl

end ERecipe
